import Mathlib

/-!
Verification development for the nigiri commit-addressed artifact store.

The Go sources are shallowly embedded: pure logic becomes Lean functions,
filesystem state becomes explicit data (lists of directory entries, boolean
presence flags on the per-commit artifact directory), and external
capabilities (git clone, checkout, the OS build command, file copy and
compression) become boolean oracles recorded in an explicit call trace.
Machine `int` values are embedded as `Int`; Go string length (`len`) is
embedded as `String.length` (all hashes and names involved are ASCII).
Primitive filesystem operations (mkdir, chdir, create file, remove) are
modelled as succeeding; the failure points the code branches on (clone,
checkout, stat of the working directory, the build command exit status,
binary copy, compression) are modelled faithfully as oracle outcomes.
-/

namespace Nigiri

/-- Embeds `strings.HasPrefix pre` from the Go standard library at the
character level (all names involved are ASCII, so bytes and characters
coincide): does `s` start with `pre`? -/
def strStartsWith (s pre : String) : Bool := pre.data.isPrefixOf s.data

/-- Embeds `strings.ToUpper` at the character level. -/
def strToUpper (s : String) : String := ⟨s.data.map Char.toUpper⟩

/-- Embeds Go slicing `s[:n]` at the character level: the first `n`
characters of `s`. -/
def strTake (s : String) (n : Nat) : String := ⟨s.data.take n⟩

/-- Embeds `commits.Commit` (pkg/commits): a full hash and a short hash. -/
structure Commit where
  hash : String
  shortHash : String
deriving DecidableEq, Repr

/-- Error cases produced by `Commit.Validate` and `Commit.CalculateShortHash`. -/
inductive CommitError where
  | hashEmpty
  | hashTooShort (h : String)
  | shortHashEmpty
  | shortHashTooShort (s : String)
deriving DecidableEq, Repr

/-- Embeds `Commit.Validate`: the exact if-chain of the Go method.
It checks emptiness and minimum length 7 of both hashes, in order,
and nothing else (in particular it does not relate the two fields). -/
def Commit.validate (c : Commit) : Except CommitError Unit :=
  if c.hash = "" then .error .hashEmpty
  else if c.hash.length < 7 then .error (.hashTooShort c.hash)
  else if c.shortHash = "" then .error .shortHashEmpty
  else if c.shortHash.length < 7 then .error (.shortHashTooShort c.shortHash)
  else .ok ()

/-- Embeds `Commit.CalculateShortHash`: fails when the full hash has fewer
than 7 characters, otherwise sets the short hash to the first 7 characters. -/
def Commit.calculateShortHash (c : Commit) : Except CommitError Commit :=
  if c.hash.length < 7 then .error (.hashTooShort c.hash)
  else .ok { c with shortHash := strTake c.hash 7 }

/-- Embeds `dirutils.DirEntry` / the data read per entry by `os.ReadDir`
plus `os.Stat` in the commands: name, directory flag, modification time
(an abstract instant in nanoseconds), size and permission bits. -/
structure DirEntry where
  name : String
  isDir : Bool
  modTime : Int
  sizeInKB : Int
  permission : Nat
deriving DecidableEq, Repr

/-- Error cases surfaced by `runCommand.executeRun` while resolving the
directory to run (pkg/commands run command, commit-resolution part). -/
inductive RunError where
  | noBuildsFound
  | commitHashTooShort (h : String)
  | noBuildFound (h : String)
deriving DecidableEq, Repr

/-- One step of the latest-directory loop in `executeRun` (empty-selector
branch): keep the entry whose modification time is strictly `After` the
current best; non-directories are skipped. -/
def latestStep (acc : Option DirEntry) (e : DirEntry) : Option DirEntry :=
  if e.isDir then
    match acc with
    | none => some e
    | some l => if l.modTime < e.modTime then some e else some l
  else acc

/-- The whole latest-directory loop of `executeRun`: fold `latestStep`
over the entries of the target root, starting from no candidate. -/
def findLatestDir (entries : List DirEntry) : Option DirEntry :=
  entries.foldl latestStep none

/-- The prefix-match loop of `executeRun` (non-empty selector branch):
return the first directory entry whose name starts with the selector and
stop there (the Go loop does `break` on the first match). -/
def firstMatchingDir : List DirEntry → String → Option DirEntry
  | [], _ => none
  | e :: rest, h =>
    if e.isDir && strStartsWith e.name h then some e else firstMatchingDir rest h

/-- Embeds the commit-directory resolution of `executeRun`
(lines choosing `runDir`): an empty selector picks the directory with the
latest modification time, otherwise the selector must have at least 7
characters and is matched as a name prefix, taking the first match. -/
def resolveRunDir (entries : List DirEntry) (commitHash : String) :
    Except RunError String :=
  if commitHash = "" then
    match findLatestDir entries with
    | none => .error .noBuildsFound
    | some d => .ok d.name
  else if commitHash.length < 7 then
    .error (.commitHashTooShort commitHash)
  else
    match firstMatchingDir entries commitHash with
    | none => .error (.noBuildFound commitHash)
    | some d => .ok d.name

/-- Embeds the HEAD-alias normalization in the run command's argument
handling: a selector whose upper-casing is HEAD is replaced by the empty
selector before resolution. -/
def normalizeRunCommitArg (s : String) : String :=
  if strToUpper s = "HEAD" then "" else s

/-- The run command's resolution as invoked from the CLI handler:
HEAD-alias normalization followed by directory resolution. -/
def runResolve (entries : List DirEntry) (arg : String) :
    Except RunError String :=
  resolveRunDir entries (normalizeRunCommitArg arg)

/-! ### Artifact store (pkg/fsutils, internal/targets)

A target root is embedded as the list of names of the commit directories
it currently holds; `existDir` is membership in that list. -/

/-- Embeds `existDir` / `dirutils.Exists` on a target root: does a
directory of this name exist among the root's children? -/
def existDir (dirs : List String) (d : String) : Bool := dirs.contains d

/-- Embeds `IsExistTargetCommitDir`: existence of the short-hash-named
commit directory under the target root. -/
def isExistTargetCommitDir (dirs : List String) (c : Commit) : Bool :=
  existDir dirs c.shortHash

/-- Error cases of `CreateTargetCommitDir`. -/
inductive CreateError where
  | invalidCommit (e : CommitError)
  | alreadyExists (d : String)
deriving DecidableEq, Repr

/-- Embeds `CreateTargetCommitDir`: validate the commit, fail if the
short-hash directory already exists, otherwise create it (the new state
of the target root is returned; on error nothing is created). -/
def createTargetCommitDir (dirs : List String) (c : Commit) :
    Except CreateError (List String) :=
  match c.validate with
  | .error e => .error (.invalidCommit e)
  | .ok _ =>
    if existDir dirs c.shortHash then .error (.alreadyExists c.shortHash)
    else .ok (dirs ++ [c.shortHash])

/-! ### Build pipeline (build command, `executeBuild`) -/

/-- The per-OS build command table of a target's configuration
(`BuildCommand` in the config model). -/
structure BuildCommandCfg where
  linux : String
  windows : String
  darwin : String
  binaryPathValue : String
deriving DecidableEq, Repr

/-- Embeds the `BinaryPath` accessor: the configured binary path when the
field is non-empty, nothing otherwise. -/
def BuildCommandCfg.binaryPath (bc : BuildCommandCfg) : Option String :=
  if bc.binaryPathValue = "" then none else some bc.binaryPathValue

/-- The parts of a target's configuration the build pipeline reads. -/
structure TargetCfg where
  sources : String
  defaultBranch : String
  workingDirectory : String
  binaryOnly : Bool
  buildCommand : BuildCommandCfg
  env : List String
deriving DecidableEq, Repr

/-- The host operating system, as dispatched on by `runtime.GOOS`. -/
inductive HostOS where
  | linux
  | windows
  | darwin
  | other
deriving DecidableEq, Repr

/-- The OS dispatch `switch` of `executeBuild`: the build command string
for the host OS, or nothing on an unsupported OS. -/
def osBuildCommand (bc : BuildCommandCfg) : HostOS → Option String
  | .linux => some bc.linux
  | .windows => some bc.windows
  | .darwin => some bc.darwin
  | .other => none

/-- Error cases of the build pipeline. -/
inductive BuildError where
  | remoteHeadFailed (branch : String)
  | shortHashFailed (e : CommitError)
  | invalidCommit (e : CommitError)
  | cloneFailed
  | checkoutFailed (commitArg : String)
  | workingDirNotFound (d : String)
  | unsupportedOS
  | noBuildCommand
  | buildFailed
deriving DecidableEq, Repr

/-- Embeds the commit-resolution block of `executeBuild` (from the
`c.commit` test through `Validate`): an empty commit argument asks the
remote for the default branch's HEAD (falling back to the branch name
main when the configuration leaves it empty), any non-empty argument is
used literally as the full hash; then the short hash is derived and the
commit validated. `remoteHead` is the external
`GetDefaultBranchRemoteHead` capability, keyed by branch name. -/
def resolveBuildCommit (cfg : TargetCfg) (commitArg : String)
    (remoteHead : String → Except String String) :
    Except BuildError Commit :=
  let resolved : Except BuildError Commit :=
    if commitArg = "" then
      let defaultBranch :=
        if cfg.defaultBranch = "" then "main" else cfg.defaultBranch
      match remoteHead defaultBranch with
      | .error _ => .error (.remoteHeadFailed defaultBranch)
      | .ok h => .ok { hash := h, shortHash := "" }
    else
      .ok { hash := commitArg, shortHash := "" }
  match resolved with
  | .error e => .error e
  | .ok c0 =>
    match c0.calculateShortHash with
    | .error e => .error (.shortHashFailed e)
    | .ok c1 =>
      match c1.validate with
      | .error e => .error (.invalidCommit e)
      | .ok _ => .ok c1

/-- The on-disk state of one (target, commit) artifact directory, as the
presence flags of the pieces the pipeline creates and removes: the
directory itself, its `src` subtree, its `logs` directory, its `bin`
artifact, the compressed source archive and the metadata file. -/
structure CommitDirFs where
  dirExists : Bool
  srcExists : Bool
  logsExists : Bool
  binExists : Bool
  archiveExists : Bool
  metaExists : Bool
deriving DecidableEq, Repr

/-- Outcomes of the external capabilities the pipeline invokes: clone,
checkout, the stat of the configured working directory inside the clone,
the build command's exit status, the binary copy and the source
compression. -/
structure BuildEnv where
  cloneOk : Bool
  checkoutOk : Bool
  workDirOk : Bool
  buildOk : Bool
  copyBinOk : Bool
  compressOk : Bool
deriving DecidableEq, Repr

/-- The non-fatal failures `executeBuild` downgrades to warnings. -/
inductive BuildWarning where
  | binaryCopyFailed
  | compressFailed
deriving DecidableEq, Repr

/-- Which external commands were actually invoked during one pipeline
run, and the warnings it printed. -/
structure BuildTrace where
  cloneCalled : Bool
  buildCalled : Bool
  warnings : List BuildWarning
deriving DecidableEq, Repr

/-- The overall outcome of one `executeBuild` invocation. -/
inductive BuildResult where
  | skippedAlreadyBuilt
  | built
  | failed (e : BuildError)
deriving DecidableEq, Repr

/-- Result bundle of one pipeline run: outcome, final directory state,
and the trace of external calls. -/
structure BuildStep where
  result : BuildResult
  fs : CommitDirFs
  trace : BuildTrace
deriving DecidableEq, Repr

/-- The force-rebuild preparation of `executeBuild`: `os.RemoveAll` on
the `src` subtree only — the logs directory and the metadata file of the
previous build are not touched. -/
def forceWipeSrc (fs : CommitDirFs) : CommitDirFs := { fs with srcExists := false }

/-- The source-retention tail of `executeBuild`: a binary-only target has
its source tree removed; otherwise the tree is compressed into an archive
and removed on success, or left in place with a warning when compression
fails. -/
def sourceRetention (binaryOnly compressOk : Bool) (fs : CommitDirFs) :
    CommitDirFs × List BuildWarning :=
  if binaryOnly then ({ fs with srcExists := false }, [])
  else if compressOk then
    ({ fs with archiveExists := true, srcExists := false }, [])
  else (fs, [.compressFailed])

/-- Embeds `executeBuild` of the build command from the already-built
check onward (commit resolution included via `resolveBuildCommit`),
following the source's branch structure statement by statement:
skip when the commit directory exists and force is not set; under force
wipe only `src`; otherwise strict-create the directory; make the logs
directory; clone; checkout only for a non-empty commit argument with a
non-1 depth; check the configured working directory; select the per-OS
build command; run it with the log captured; write the metadata file
regardless of the build's exit status; copy the configured binary only on
success (failure is a warning); retain the source per configuration; and
finally fail if the build command's exit status was non-zero. -/
def executeBuild (cfg : TargetCfg) (commitArg : String) (depth : Int)
    (force : Bool) (remoteHead : String → Except String String)
    (env : BuildEnv) (os : HostOS) (fs : CommitDirFs) : BuildStep :=
  match resolveBuildCommit cfg commitArg remoteHead with
  | .error e => ⟨.failed e, fs, ⟨false, false, []⟩⟩
  | .ok _ =>
    if fs.dirExists && !force then
      ⟨.skippedAlreadyBuilt, fs, ⟨false, false, []⟩⟩
    else
      let fs1 := if fs.dirExists then forceWipeSrc fs
                 else { fs with dirExists := true }
      let fs2 := { fs1 with logsExists := true }
      if env.cloneOk = false then
        ⟨.failed .cloneFailed, fs2, ⟨true, false, []⟩⟩
      else
        let fs3 := { fs2 with srcExists := true }
        if commitArg ≠ "" ∧ depth ≠ 1 ∧ env.checkoutOk = false then
          ⟨.failed (.checkoutFailed commitArg), fs3, ⟨true, false, []⟩⟩
        else if cfg.workingDirectory ≠ "" ∧ env.workDirOk = false then
          ⟨.failed (.workingDirNotFound cfg.workingDirectory), fs3,
            ⟨true, false, []⟩⟩
        else
          match osBuildCommand cfg.buildCommand os with
          | none => ⟨.failed .unsupportedOS, fs3, ⟨true, false, []⟩⟩
          | some cmdStr =>
            if cmdStr = "" then
              ⟨.failed .noBuildCommand, fs3, ⟨true, false, []⟩⟩
            else
              let fs4 := { fs3 with metaExists := true }
              let copyAttempted :=
                env.buildOk && cfg.buildCommand.binaryPath.isSome
              let fs5 := if copyAttempted && env.copyBinOk then
                           { fs4 with binExists := true }
                         else fs4
              let w1 : List BuildWarning :=
                if copyAttempted && !env.copyBinOk then [.binaryCopyFailed]
                else []
              let retained := sourceRetention cfg.binaryOnly env.compressOk fs5
              if env.buildOk then
                ⟨.built, retained.1, ⟨true, true, w1 ++ retained.2⟩⟩
              else
                ⟨.failed .buildFailed, retained.1, ⟨true, true, w1 ++ retained.2⟩⟩

/-- A file as the binary-copy step sees it: opaque contents plus the
permission bits (`os.FileMode`). -/
structure FileData where
  bytes : List Nat
  mode : Nat
deriving DecidableEq, Repr

/-- Embeds `copyFile` of the build command: opening a missing source
fails; otherwise the destination receives the source's contents and,
via the final `os.Chmod` with the source's `os.Stat` mode, its
permission bits. -/
def copyFile (src : Option FileData) : Except String FileData :=
  match src with
  | none => .error "failed to open source file"
  | some f => .ok { bytes := f.bytes, mode := f.mode }

/-! ### Retention manager (cleanup command, `executeCleanup`) -/

/-- Nanoseconds per day: the cleanup command's age bound is
`time.Duration(maxAge) * 24 * time.Hour` with `time.Hour` in
nanoseconds. -/
def nsPerDay : Int := 24 * 60 * 60 * 1000000000

/-- The age test of the cleanup marking loop:
`now.Sub(build.ModTime) > maxAgeDuration`. -/
def isOlderThan (now maxAge : Int) (e : DirEntry) : Bool :=
  decide (maxAge * nsPerDay < now - e.modTime)

/-- The count-bound marking of `executeCleanup`: when the bound is
positive and exceeded, every build beyond the first `maxBuilds` of the
newest-first list is marked. -/
def marksByCount (builds : List DirEntry) (maxBuilds : Int) : List DirEntry :=
  if 0 < maxBuilds ∧ maxBuilds < (builds.length : Int) then
    builds.drop maxBuilds.toNat
  else []

/-- One iteration of the age-bound marking loop of `executeCleanup`:
a build already marked (by name) is skipped, otherwise it is appended
when its age exceeds the bound. -/
def ageMarkStep (now maxAge : Int) (acc : List DirEntry) (e : DirEntry) :
    List DirEntry :=
  if acc.any (fun m => m.name == e.name) then acc
  else if isOlderThan now maxAge e then acc ++ [e] else acc

/-- The full marking phase of `executeCleanup` over the newest-first
build list: count-bound marks first, then — only when the age bound is
positive — the age loop appends the not-yet-marked expired builds. -/
def cleanupMarks (builds : List DirEntry) (maxBuilds maxAge now : Int) :
    List DirEntry :=
  let byCount := marksByCount builds maxBuilds
  if 0 < maxAge then builds.foldl (ageMarkStep now maxAge) byCount
  else byCount

/-- The cleanup command's flag default for the age bound in days
(`--max-age`). -/
def cleanupDefaultMaxAge : Int := 30

/-- The cleanup command's flag default for the per-target build count
bound (`--max-builds`). -/
def cleanupDefaultMaxBuilds : Int := 5

/-- The deletion phase of `executeCleanup`: nothing is removed when no
build is marked, in dry-run mode, or when the confirmation prompt is not
answered y or Y; otherwise exactly the marked builds are removed
(individual removal failures are warnings — removal itself is modelled
as succeeding). -/
def cleanupRemoved (builds : List DirEntry) (maxBuilds maxAge now : Int)
    (dryRun skipConfirm : Bool) (confirmInput : String) : List DirEntry :=
  let marks := cleanupMarks builds maxBuilds maxAge now
  if marks.isEmpty then []
  else if dryRun then []
  else if !skipConfirm && !(confirmInput == "y" || confirmInput == "Y") then []
  else marks

/-! ## Theorems -/

/-- C3, counterexample: `Validate` accepts a commit whose short hash is
not the first 7 characters of its full hash, so not every commit accepted
by `Validate` has `shortHash == hash[0:7]`. -/
theorem validate_accepts_mismatched_shortHash :
    Commit.validate ⟨"aaaaaaaa", "bbbbbbb"⟩ = .ok () ∧
    (Commit.mk "aaaaaaaa" "bbbbbbb").shortHash ≠ strTake "aaaaaaaa" 7 := by
  exact ⟨rfl, by decide⟩

set_option maxRecDepth 8192

/-- On a hash of length at least 7, `CalculateShortHash` succeeds, sets
the short hash to the first 7 characters, and the resulting commit passes
`Validate`. -/
theorem calculateShortHash_of_le (c : Commit) (hlen : 7 ≤ c.hash.length) :
    c.calculateShortHash = .ok { c with shortHash := strTake c.hash 7 } ∧
    Commit.validate { c with shortHash := strTake c.hash 7 } = .ok () := by
  have hne : c.hash ≠ "" := by
    intro he
    rw [he] at hlen
    exact absurd hlen (by decide)
  have hdlen : 7 ≤ c.hash.data.length := hlen
  have htlen : (strTake c.hash 7).length = 7 := by
    show (c.hash.data.take 7).length = 7
    rw [List.length_take]
    omega
  have hte : strTake c.hash 7 ≠ "" := by
    intro he
    rw [he] at htlen
    exact absurd htlen (by decide)
  constructor
  · simp [Commit.calculateShortHash, Nat.not_lt.mpr hlen]
  · unfold Commit.validate
    simp only [hne, hte, Nat.not_lt.mpr hlen, htlen, if_false, ite_false]
    norm_num

/-- C3, amended: `CalculateShortHash` succeeds exactly when the full hash
has at least 7 characters and then sets the short hash to its first 7
characters; `Validate` fails if and only if the hash is empty, shorter
than 7, or the short hash is empty or shorter than 7; and every commit
produced by `CalculateShortHash` has `shortHash == hash[0:7]` and passes
`Validate` — but `Validate` alone does not enforce that derivation. -/
theorem calculateShortHash_validate_spec (c : Commit) :
    (c.hash.length < 7 → c.calculateShortHash = .error (.hashTooShort c.hash)) ∧
    (7 ≤ c.hash.length →
      c.calculateShortHash = .ok { c with shortHash := strTake c.hash 7 }) ∧
    (c.validate ≠ .ok () ↔
      c.hash = "" ∨ c.hash.length < 7 ∨ c.shortHash = "" ∨
        c.shortHash.length < 7) ∧
    (∀ c', c.calculateShortHash = .ok c' →
      c'.shortHash = strTake c.hash 7 ∧ c'.validate = .ok ()) := by
  refine ⟨?_, ?_, ?_, ?_⟩
  · intro h
    simp [Commit.calculateShortHash, h]
  · intro h
    exact (calculateShortHash_of_le c h).1
  · unfold Commit.validate
    split_ifs with h1 h2 h3 h4
    · simp [h1]
    · simp [h2]
    · simp [h3]
    · simp [h4]
    · simp [h1, h2, h3, h4]
  · intro c' h
    unfold Commit.calculateShortHash at h
    split_ifs at h with hlen
    have hc : c' = { c with shortHash := strTake c.hash 7 } :=
      (Except.ok.inj h).symm
    subst hc
    push_neg at hlen
    exact ⟨rfl, (calculateShortHash_of_le c hlen).2⟩

/-- Witness for the amended C3 at a concrete commit. -/
theorem calculateShortHash_validate_spec_witness :
    7 ≤ ("1234567890" : String).length ∧
    Commit.calculateShortHash ⟨"1234567890", ""⟩ =
      .ok ⟨"1234567890", "1234567"⟩ := by
  refine ⟨by decide, ?_⟩
  have h := (calculateShortHash_validate_spec ⟨"1234567890", ""⟩).2.1 (by decide)
  exact h

/-- C7: a strict create of the commit directory that succeeds makes the
existence check true, and an immediately repeated create fails with the
already-exists error while the existence check stays true (the failed
create returns no new state, so nothing on disk changes). -/
theorem create_then_create_fails (dirs dirs2 : List String) (c : Commit)
    (h : createTargetCommitDir dirs c = .ok dirs2) :
    isExistTargetCommitDir dirs2 c = true ∧
    createTargetCommitDir dirs2 c = .error (.alreadyExists c.shortHash) := by
  unfold createTargetCommitDir at h
  cases hv : c.validate with
  | error e => rw [hv] at h; exact absurd h (by simp)
  | ok u =>
    rw [hv] at h
    by_cases he : existDir dirs c.shortHash = true
    · rw [if_pos he] at h
      exact absurd h (by simp)
    · rw [if_neg he] at h
      have hd : dirs2 = dirs ++ [c.shortHash] := (Except.ok.inj h).symm
      have hex : isExistTargetCommitDir dirs2 c = true := by
        subst hd
        simp [isExistTargetCommitDir, existDir, List.contains, List.elem_eq_mem]
      refine ⟨hex, ?_⟩
      unfold createTargetCommitDir
      rw [hv]
      simp only [isExistTargetCommitDir] at hex
      rw [if_pos hex]

/-- Witness for C7: creating the directory for a concrete valid commit in
an empty target root, then creating it again. -/
theorem create_then_create_fails_witness :
    createTargetCommitDir [] ⟨"1234567890", "1234567"⟩ = .ok ["1234567"] ∧
    isExistTargetCommitDir ["1234567"] ⟨"1234567890", "1234567"⟩ = true ∧
    createTargetCommitDir ["1234567"] ⟨"1234567890", "1234567"⟩ =
      .error (.alreadyExists "1234567") := by
  have h : createTargetCommitDir [] ⟨"1234567890", "1234567"⟩ =
      .ok ["1234567"] := rfl
  have hc := create_then_create_fails [] ["1234567"] ⟨"1234567890", "1234567"⟩ h
  exact ⟨h, hc.1, hc.2⟩

/-- The break-on-first-match loop of `executeRun` computes the first
directory entry whose name starts with the selector. -/
theorem firstMatchingDir_eq_find (entries : List DirEntry) (h : String) :
    firstMatchingDir entries h =
      entries.find? (fun e => e.isDir && strStartsWith e.name h) := by
  induction entries with
  | nil => rfl
  | cons e rest ih =>
    by_cases hc : (e.isDir && strStartsWith e.name h) = true
    · simp [firstMatchingDir, hc, List.find?_cons_of_pos]
    · simp only [Bool.not_eq_true] at hc
      simp [firstMatchingDir, hc, List.find?_cons_of_neg, ih]

/-- C1, amended: a non-empty run selector shorter than 7 characters is
rejected as too short before any prefix matching; otherwise it is matched
as a name prefix against the stored commit directories and the first
match in directory order is used silently — even when several
directories match — with zero matches reported as no build found. There
is no ambiguity detection. -/
theorem resolveRunDir_selector_spec (entries : List DirEntry) (sel : String)
    (hne : sel ≠ "") :
    resolveRunDir entries sel =
      if sel.length < 7 then .error (.commitHashTooShort sel)
      else
        match entries.find? (fun e => e.isDir && strStartsWith e.name sel) with
        | none => .error (.noBuildFound sel)
        | some d => .ok d.name := by
  unfold resolveRunDir
  rw [if_neg hne, firstMatchingDir_eq_find]

/-- Witness for the amended C1 at a concrete selector and store. -/
theorem resolveRunDir_selector_spec_witness :
    ("abcdefg" : String) ≠ "" ∧
    resolveRunDir [] "abcdefg" = .error (.noBuildFound "abcdefg") := by
  refine ⟨by decide, ?_⟩
  exact (resolveRunDir_selector_spec [] "abcdefg" (by decide)).trans rfl

/-- C1, counterexample: with stored directories abc1234 and abc5678, the
selector abc fails as too short — not with an ambiguity error — and the
selector abc1 also fails as too short instead of resolving uniquely;
moreover a 7-character selector matched by two stored directories
silently picks the first one. -/
theorem runSelector_not_ambiguous :
    resolveRunDir [⟨"abc1234", true, 0, 0, 0⟩, ⟨"abc5678", true, 1, 0, 0⟩]
        "abc" = .error (.commitHashTooShort "abc") ∧
    resolveRunDir [⟨"abc1234", true, 0, 0, 0⟩, ⟨"abc5678", true, 1, 0, 0⟩]
        "abc1" = .error (.commitHashTooShort "abc1") ∧
    resolveRunDir [⟨"abcdefg0", true, 0, 0, 0⟩, ⟨"abcdefg1", true, 1, 0, 0⟩]
        "abcdefg" = .ok "abcdefg0" := by
  exact ⟨rfl, rfl, rfl⟩

/-- C6, counterexample: the build command's commit resolution has no HEAD
alias. With the remote default branch's HEAD available as a valid hash,
the ref HEAD (and head) is treated as a literal commit hash and fails
short-hash calculation because it is shorter than 7 characters, while the
empty ref resolves to the remote HEAD. -/
theorem buildCommit_HEAD_is_literal :
    resolveBuildCommit ⟨"https://example.invalid/r.git", "main", "", false,
        ⟨"make", "make", "make", ""⟩, []⟩ "HEAD"
        (fun _ => .ok "1234567890abcdef") =
      .error (.shortHashFailed (.hashTooShort "HEAD")) ∧
    resolveBuildCommit ⟨"https://example.invalid/r.git", "main", "", false,
        ⟨"make", "make", "make", ""⟩, []⟩ "head"
        (fun _ => .ok "1234567890abcdef") =
      .error (.shortHashFailed (.hashTooShort "head")) ∧
    resolveBuildCommit ⟨"https://example.invalid/r.git", "main", "", false,
        ⟨"make", "make", "make", ""⟩, []⟩ ""
        (fun _ => .ok "1234567890abcdef") =
      .ok ⟨"1234567890abcdef", "1234567"⟩ := by
  exact ⟨rfl, rfl, rfl⟩

/-- C6, amended: in the build command every non-empty ref — the tokens
HEAD and head included — is treated as a literal commit hash with no
remote lookup (resolution does not depend on the remote capability at
all), so HEAD fails as an under-7-character hash; only the empty ref
queries the remote default branch's current HEAD and builds that hash. -/
theorem resolveBuildCommit_literal_spec (cfg : TargetCfg)
    (remote remote2 : String → Except String String) :
    (∀ arg, arg ≠ "" →
      resolveBuildCommit cfg arg remote = resolveBuildCommit cfg arg remote2) ∧
    resolveBuildCommit cfg "HEAD" remote =
      .error (.shortHashFailed (.hashTooShort "HEAD")) ∧
    resolveBuildCommit cfg "head" remote =
      .error (.shortHashFailed (.hashTooShort "head")) ∧
    (∀ h,
      remote (if cfg.defaultBranch = "" then "main" else cfg.defaultBranch) =
        .ok h →
      7 ≤ h.length →
      resolveBuildCommit cfg "" remote = .ok ⟨h, strTake h 7⟩) := by
  refine ⟨?_, ?_, ?_, ?_⟩
  · intro arg harg
    unfold resolveBuildCommit
    rw [if_neg harg, if_neg harg]
  · unfold resolveBuildCommit
    rw [if_neg (by decide : ("HEAD" : String) ≠ "")]
    rfl
  · unfold resolveBuildCommit
    rw [if_neg (by decide : ("head" : String) ≠ "")]
    rfl
  · intro h hrem hlen
    have hc := calculateShortHash_of_le ⟨h, ""⟩ hlen
    simp only at hc
    unfold resolveBuildCommit
    simp [hrem, hc.1, hc.2]

/-- Witness for the amended C6 at a concrete configuration, ref and
remote. -/
theorem resolveBuildCommit_literal_spec_witness :
    ("1234567" : String) ≠ "" ∧
    resolveBuildCommit ⟨"s", "", "", false, ⟨"make", "", "", ""⟩, []⟩
        "1234567" (fun _ => .ok "aaaaaaaa") =
      resolveBuildCommit ⟨"s", "", "", false, ⟨"make", "", "", ""⟩, []⟩
        "1234567" (fun _ => .error "network down") := by
  refine ⟨by decide, ?_⟩
  exact (resolveBuildCommit_literal_spec
    ⟨"s", "", "", false, ⟨"make", "", "", ""⟩, []⟩
    (fun _ => .ok "aaaaaaaa") (fun _ => .error "network down")).1
    "1234567" (by decide)

/-- A step of the latest-directory loop either keeps the accumulator or
switches to the entry being examined. -/
theorem latestStep_cases (acc : Option DirEntry) (e : DirEntry) :
    latestStep acc e = acc ∨ latestStep acc e = some e := by
  unfold latestStep
  by_cases hd : e.isDir = true
  · cases acc with
    | none => simp [hd]
    | some a =>
      by_cases hlt : a.modTime < e.modTime
      · simp [hd, hlt]
      · simp [hd, hlt]
  · simp [hd]

/-- A step of the latest-directory loop never loses a set accumulator. -/
theorem latestStep_some (a : DirEntry) (e : DirEntry) :
    ∃ v, latestStep (some a) e = some v := by
  unfold latestStep
  by_cases hd : e.isDir = true
  · by_cases hlt : a.modTime < e.modTime
    · exact ⟨e, by simp [hd, hlt]⟩
    · exact ⟨a, by simp [hd, hlt]⟩
  · exact ⟨a, by simp [hd]⟩

/-- A step of the latest-directory loop never decreases the tracked
modification time. -/
theorem latestStep_ge (a v e : DirEntry)
    (h : latestStep (some a) e = some v) : a.modTime ≤ v.modTime := by
  unfold latestStep at h
  by_cases hd : e.isDir = true
  · by_cases hlt : a.modTime < e.modTime
    · simp only [hd, if_true, hlt, if_pos] at h
      rw [← Option.some.inj h]
      exact le_of_lt hlt
    · simp only [hd, if_true, hlt, if_neg, not_false_iff] at h
      simp at h
      rw [← h]
  · simp [hd] at h
    rw [← h]

/-- After examining a directory entry, the tracked modification time
dominates that entry's. -/
theorem latestStep_ge_entry (acc : Option DirEntry) (v e : DirEntry)
    (hd : e.isDir = true) (h : latestStep acc e = some v) :
    e.modTime ≤ v.modTime := by
  unfold latestStep at h
  cases acc with
  | none =>
    simp [hd] at h
    rw [← h]
  | some a =>
    by_cases hlt : a.modTime < e.modTime
    · simp [hd, hlt] at h
      rw [← h]
    · simp [hd, hlt] at h
      rw [← h]
      exact le_of_not_lt hlt

/-- Examining a directory entry always sets the accumulator. -/
theorem latestStep_isSome_of_dir (acc : Option DirEntry) (e : DirEntry)
    (hd : e.isDir = true) : ∃ v, latestStep acc e = some v := by
  cases acc with
  | none => exact ⟨e, by simp [latestStep, hd]⟩
  | some a => exact latestStep_some a e

/-- The latest-directory fold only ever returns the accumulator's value
or an element of the list. -/
theorem foldl_latestStep_mem (l : List DirEntry) :
    ∀ (acc : Option DirEntry) (r : DirEntry),
      l.foldl latestStep acc = some r → acc = some r ∨ r ∈ l := by
  induction l with
  | nil => intro acc r h; exact .inl h
  | cons e t ih =>
    intro acc r h
    rw [List.foldl_cons] at h
    rcases ih (latestStep acc e) r h with hs | hm
    · rcases latestStep_cases acc e with hc | hc
      · exact .inl (hc ▸ hs)
      · rw [hc] at hs
        exact .inr (by rw [← Option.some.inj hs]; exact List.mem_cons_self e t)
    · exact .inr (List.mem_cons_of_mem e hm)

/-- The latest-directory fold returns an upper bound: its result's
modification time dominates the accumulator's and every directory
entry's in the list. -/
theorem foldl_latestStep_ub (l : List DirEntry) :
    ∀ (acc : Option DirEntry) (r : DirEntry),
      l.foldl latestStep acc = some r →
      (∀ a, acc = some a → a.modTime ≤ r.modTime) ∧
      (∀ e ∈ l, e.isDir = true → e.modTime ≤ r.modTime) := by
  induction l with
  | nil =>
    intro acc r h
    refine ⟨?_, by intro e he; exact absurd he (List.not_mem_nil e)⟩
    intro a ha
    rw [ha] at h
    rw [Option.some.inj h]
  | cons e t ih =>
    intro acc r h
    rw [List.foldl_cons] at h
    constructor
    · intro a ha
      subst ha
      obtain ⟨v, hv⟩ := latestStep_some a e
      have h1 := latestStep_ge a v e hv
      rw [hv] at h
      exact le_trans h1 ((ih (some v) r h).1 v rfl)
    · intro x hx hxdir
      rcases List.mem_cons.mp hx with hxe | hxt
      · subst hxe
        obtain ⟨v, hv⟩ := latestStep_isSome_of_dir acc x hxdir
        have h1 := latestStep_ge_entry acc v x hxdir hv
        rw [hv] at h
        exact le_trans h1 ((ih (some v) r h).1 v rfl)
      · exact (ih (latestStep acc e) r h).2 x hxt hxdir

/-- The latest-directory fold produces a value as soon as the list holds
some directory or the accumulator is already set. -/
theorem foldl_latestStep_isSome (l : List DirEntry) :
    ∀ acc : Option DirEntry,
      (∃ e ∈ l, e.isDir = true) ∨ acc.isSome = true →
      (l.foldl latestStep acc).isSome = true := by
  induction l with
  | nil =>
    intro acc h
    rcases h with ⟨e, he, _⟩ | h
    · exact absurd he (List.not_mem_nil e)
    · exact h
  | cons e t ih =>
    intro acc h
    rw [List.foldl_cons]
    rcases h with ⟨x, hx, hxdir⟩ | hs
    · rcases List.mem_cons.mp hx with hxe | hxt
      · subst hxe
        obtain ⟨v, hv⟩ := latestStep_isSome_of_dir acc x hxdir
        exact ih (latestStep acc x) (.inr (by rw [hv]; rfl))
      · exact ih (latestStep acc e) (.inl ⟨x, hxt, hxdir⟩)
    · obtain ⟨a, ha⟩ := Option.isSome_iff_exists.mp hs
      obtain ⟨v, hv⟩ := latestStep_some a e
      rw [ha]
      exact ih (latestStep (some a) e) (.inr (by rw [hv]; rfl))

/-- C4: with an empty run selector or the HEAD alias, resolution goes
through the latest-build lookup; over a target root whose entries are all
directories with pairwise distinct modification times it fails with the
no-builds error when there are none, and otherwise returns exactly the
directory with the maximum modification time. -/
theorem runResolve_latest_spec (entries : List DirEntry) (sel : String)
    (hsel : sel = "" ∨ strToUpper sel = "HEAD")
    (hdirs : ∀ e ∈ entries, e.isDir = true)
    (hdist : entries.Pairwise (fun a b => a.modTime ≠ b.modTime)) :
    runResolve entries sel = resolveRunDir entries "" ∧
    (entries = [] → runResolve entries sel = .error .noBuildsFound) ∧
    (∀ d, findLatestDir entries = some d ↔
      d ∈ entries ∧ ∀ e ∈ entries, e ≠ d → e.modTime < d.modTime) ∧
    (∀ d, findLatestDir entries = some d →
      runResolve entries sel = .ok d.name) := by
  have hnorm : normalizeRunCommitArg sel = "" := by
    rcases hsel with h | h
    · subst h
      unfold normalizeRunCommitArg
      rw [if_neg (by decide)]
    · unfold normalizeRunCommitArg
      rw [if_pos h]
  have hrr : runResolve entries sel = resolveRunDir entries "" := by
    unfold runResolve
    rw [hnorm]
  refine ⟨hrr, ?_, ?_, ?_⟩
  · intro he
    subst he
    rw [hrr]
    rfl
  · intro d
    constructor
    · intro hf
      rcases foldl_latestStep_mem entries none d hf with h0 | hm
      · exact absurd h0 (by simp)
      refine ⟨hm, ?_⟩
      intro e he hne
      have hub := (foldl_latestStep_ub entries none d hf).2 e he (hdirs e he)
      have hsym : Symmetric (fun a b : DirEntry => a.modTime ≠ b.modTime) :=
        fun a b h => h.symm
      have hne2 : e.modTime ≠ d.modTime := hdist.forall hsym he hm hne
      exact lt_of_le_of_ne hub hne2
    · rintro ⟨hm, hmax⟩
      have hs := foldl_latestStep_isSome entries none
        (.inl ⟨d, hm, hdirs d hm⟩)
      obtain ⟨r, hr⟩ := Option.isSome_iff_exists.mp hs
      rcases foldl_latestStep_mem entries none r hr with h0 | hrm
      · exact absurd h0 (by simp)
      have hub := (foldl_latestStep_ub entries none r hr).2 d hm (hdirs d hm)
      by_cases hrd : r = d
      · rw [hrd] at hr
        exact hr
      · exact absurd hub (not_le_of_lt (hmax r hrm hrd))
  · intro d hf
    rw [hrr]
    unfold resolveRunDir
    rw [if_pos rfl, hf]

/-- Witness for C4 on a concrete two-entry store resolved through the
HEAD alias. -/
theorem runResolve_latest_spec_witness :
    (("HEAD" : String) = "" ∨ strToUpper "HEAD" = "HEAD") ∧
    runResolve [⟨"aaaaaaa", true, 5, 0, 0⟩, ⟨"bbbbbbb", true, 9, 0, 0⟩]
      "HEAD" = .ok "bbbbbbb" := by
  refine ⟨.inr (by decide), ?_⟩
  exact (runResolve_latest_spec
    [⟨"aaaaaaa", true, 5, 0, 0⟩, ⟨"bbbbbbb", true, 9, 0, 0⟩] "HEAD"
    (.inr (by decide)) (by decide) (by decide)).2.2.2
    ⟨"bbbbbbb", true, 9, 0, 0⟩ rfl

/-- Membership in the age-marking fold of `executeCleanup`: provided all
involved entries come from a name-unique population, the fold's result
holds exactly the already-marked builds plus the expired ones — the
skip-if-already-marked test only prevents duplicates, it never drops an
expired build. -/
theorem ageFold_mem (now maxAge : Int) (pop : List DirEntry)
    (hinj : ∀ a ∈ pop, ∀ b ∈ pop, a.name = b.name → a = b) :
    ∀ (rem acc : List DirEntry),
      (∀ a ∈ acc, a ∈ pop) → (∀ e ∈ rem, e ∈ pop) →
      ∀ x, x ∈ rem.foldl (ageMarkStep now maxAge) acc ↔
        x ∈ acc ∨ (x ∈ rem ∧ isOlderThan now maxAge x = true) := by
  intro rem
  induction rem with
  | nil =>
    intro acc hacc hrem x
    simp
  | cons e t ih =>
    intro acc hacc hrem x
    rw [List.foldl_cons]
    have hepop : e ∈ pop := hrem e (List.mem_cons_self e t)
    have htpop : ∀ y ∈ t, y ∈ pop :=
      fun y hy => hrem y (List.mem_cons_of_mem e hy)
    by_cases hmark : acc.any (fun m => m.name == e.name) = true
    · have hstep : ageMarkStep now maxAge acc e = acc := by
        unfold ageMarkStep
        rw [if_pos hmark]
      rw [hstep, ih acc hacc htpop x]
      have heacc : isOlderThan now maxAge e = true → e ∈ acc := by
        intro _
        obtain ⟨m, hm, hmn⟩ := List.any_eq_true.mp hmark
        have hmn2 : m.name = e.name := by
          exact eq_of_beq hmn
        have : m = e := hinj m (hacc m hm) e hepop hmn2
        exact this ▸ hm
      constructor
      · rintro (hx | ⟨hxt, hxo⟩)
        · exact .inl hx
        · exact .inr ⟨List.mem_cons_of_mem e hxt, hxo⟩
      · rintro (hx | ⟨hxm, hxo⟩)
        · exact .inl hx
        · rcases List.mem_cons.mp hxm with hxe | hxt
          · exact .inl (by rw [hxe]; exact heacc (hxe ▸ hxo))
          · exact .inr ⟨hxt, hxo⟩
    · by_cases hold : isOlderThan now maxAge e = true
      · have hstep : ageMarkStep now maxAge acc e = acc ++ [e] := by
          unfold ageMarkStep
          rw [if_neg hmark, if_pos hold]
        have hacc2 : ∀ a ∈ acc ++ [e], a ∈ pop := by
          intro a ha
          rcases List.mem_append.mp ha with h1 | h1
          · exact hacc a h1
          · rw [List.mem_singleton.mp h1]
            exact hepop
        rw [hstep, ih (acc ++ [e]) hacc2 htpop x]
        constructor
        · rintro (hx | ⟨hxt, hxo⟩)
          · rcases List.mem_append.mp hx with h1 | h1
            · exact .inl h1
            · rw [List.mem_singleton.mp h1]
              exact .inr ⟨List.mem_cons_self e t, hold⟩
          · exact .inr ⟨List.mem_cons_of_mem e hxt, hxo⟩
        · rintro (hx | ⟨hxm, hxo⟩)
          · exact .inl (List.mem_append.mpr (.inl hx))
          · rcases List.mem_cons.mp hxm with hxe | hxt
            · exact .inl (List.mem_append.mpr
                (.inr (List.mem_singleton.mpr hxe)))
            · exact .inr ⟨hxt, hxo⟩
      · have hstep : ageMarkStep now maxAge acc e = acc := by
          unfold ageMarkStep
          rw [if_neg hmark, if_neg hold]
        rw [hstep, ih acc hacc htpop x]
        constructor
        · rintro (hx | ⟨hxt, hxo⟩)
          · exact .inl hx
          · exact .inr ⟨List.mem_cons_of_mem e hxt, hxo⟩
        · rintro (hx | ⟨hxm, hxo⟩)
          · exact .inl hx
          · rcases List.mem_cons.mp hxm with hxe | hxt
            · exact absurd (hxe ▸ hxo) hold
            · exact .inr ⟨hxt, hxo⟩

/-- Membership in the count-bound marks of `executeCleanup`. -/
theorem marksByCount_mem (builds : List DirEntry) (maxBuilds : Int)
    (x : DirEntry) :
    x ∈ marksByCount builds maxBuilds ↔
      0 < maxBuilds ∧ maxBuilds < (builds.length : Int) ∧
        x ∈ builds.drop maxBuilds.toNat := by
  unfold marksByCount
  by_cases h : 0 < maxBuilds ∧ maxBuilds < (builds.length : Int)
  · rw [if_pos h]
    constructor
    · intro hx
      exact ⟨h.1, h.2, hx⟩
    · rintro ⟨_, _, hx⟩
      exact hx
  · rw [if_neg h]
    constructor
    · intro hx
      exact absurd hx (List.not_mem_nil x)
    · rintro ⟨h1, h2, _⟩
      exact absurd ⟨h1, h2⟩ h

/-- C5: for a name-unique build list sorted newest first, the cleanup
removal set is exactly the union of the builds beyond the first
`maxBuilds` (when that bound is positive and exceeded) and the builds
older than `maxAge` days (when that bound is positive) — the two filters
are additive, and a bound of 0 disables its filter. -/
theorem cleanupMarks_spec (builds : List DirEntry)
    (maxBuilds maxAge now : Int)
    (hinj : ∀ a ∈ builds, ∀ b ∈ builds, a.name = b.name → a = b) :
    ∀ x, x ∈ cleanupMarks builds maxBuilds maxAge now ↔
      ((0 < maxBuilds ∧ maxBuilds < (builds.length : Int) ∧
          x ∈ builds.drop maxBuilds.toNat) ∨
       (0 < maxAge ∧ x ∈ builds ∧ maxAge * nsPerDay < now - x.modTime)) := by
  intro x
  unfold cleanupMarks
  have hsub : ∀ a ∈ marksByCount builds maxBuilds, a ∈ builds := by
    intro a ha
    have := (marksByCount_mem builds maxBuilds a).mp ha
    exact List.drop_subset _ builds this.2.2
  by_cases hA : 0 < maxAge
  · rw [if_pos hA]
    rw [ageFold_mem now maxAge builds hinj builds
      (marksByCount builds maxBuilds) hsub (fun e he => he) x]
    rw [marksByCount_mem]
    constructor
    · rintro (h | ⟨hm, ho⟩)
      · exact .inl h
      · exact .inr ⟨hA, hm, of_decide_eq_true ho⟩
    · rintro (h | ⟨_, hm, ho⟩)
      · exact .inl h
      · exact .inr ⟨hm, decide_eq_true ho⟩
  · rw [if_neg hA]
    rw [marksByCount_mem]
    constructor
    · intro h
      exact .inl h
    · rintro (h | ⟨h1, _, _⟩)
      · exact h
      · exact absurd h1 hA

/-- Witness for C5: a concrete three-build store where one build is
evicted by the count bound and another by the age bound. -/
theorem cleanupMarks_spec_witness :
    DirEntry.mk "old2" true 0 0 0 ∈
      cleanupMarks [⟨"new", true, 170 * nsPerDay, 0, 0⟩,
        ⟨"old1", true, 100 * nsPerDay, 0, 0⟩,
        ⟨"old2", true, 0, 0, 0⟩] 2 30 (200 * nsPerDay) ∧
    DirEntry.mk "old1" true (100 * nsPerDay) 0 0 ∈
      cleanupMarks [⟨"new", true, 170 * nsPerDay, 0, 0⟩,
        ⟨"old1", true, 100 * nsPerDay, 0, 0⟩,
        ⟨"old2", true, 0, 0, 0⟩] 2 30 (200 * nsPerDay) := by
  constructor
  · exact (cleanupMarks_spec [⟨"new", true, 170 * nsPerDay, 0, 0⟩,
      ⟨"old1", true, 100 * nsPerDay, 0, 0⟩, ⟨"old2", true, 0, 0, 0⟩]
      2 30 (200 * nsPerDay) (by decide) ⟨"old2", true, 0, 0, 0⟩).mpr
      (.inl ⟨by decide, by decide, by decide⟩)
  · exact (cleanupMarks_spec [⟨"new", true, 170 * nsPerDay, 0, 0⟩,
      ⟨"old1", true, 100 * nsPerDay, 0, 0⟩, ⟨"old2", true, 0, 0, 0⟩]
      2 30 (200 * nsPerDay) (by decide) ⟨"old1", true, 100 * nsPerDay, 0, 0⟩).mpr
      (.inr ⟨by decide, by decide, by decide⟩)

/-- The age-marking fold never empties a non-empty accumulator. -/
theorem ageFold_ne_nil (now maxAge : Int) :
    ∀ (rem acc : List DirEntry), acc ≠ [] →
      rem.foldl (ageMarkStep now maxAge) acc ≠ [] := by
  intro rem
  induction rem with
  | nil => intro acc h; exact h
  | cons e t ih =>
    intro acc h
    rw [List.foldl_cons]
    apply ih
    unfold ageMarkStep
    split_ifs with h1 h2
    · exact h
    · simp
    · exact h

/-- The age-marking fold is non-empty whenever some examined build is
older than the bound. -/
theorem ageFold_ne_nil_of_old (now maxAge : Int) :
    ∀ (rem acc : List DirEntry) (e : DirEntry), e ∈ rem →
      isOlderThan now maxAge e = true →
      rem.foldl (ageMarkStep now maxAge) acc ≠ [] := by
  intro rem
  induction rem with
  | nil => intro acc e he _; exact absurd he (List.not_mem_nil e)
  | cons f t ih =>
    intro acc e he hold
    rw [List.foldl_cons]
    rcases List.mem_cons.mp he with hef | het
    · subst hef
      by_cases hmark : acc.any (fun m => m.name == e.name) = true
      · have haccne : acc ≠ [] := by
          intro hnil
          rw [hnil] at hmark
          simp at hmark
        have hstep : ageMarkStep now maxAge acc e = acc := by
          unfold ageMarkStep
          rw [if_pos hmark]
        exact ageFold_ne_nil now maxAge t (ageMarkStep now maxAge acc e)
          (by rw [hstep]; exact haccne)
      · have hstep : ageMarkStep now maxAge acc e = acc ++ [e] := by
          unfold ageMarkStep
          rw [if_neg hmark, if_pos hold]
        exact ageFold_ne_nil now maxAge t (ageMarkStep now maxAge acc e)
          (by rw [hstep]; simp)
    · exact ih (ageMarkStep now maxAge acc f) e het hold

/-- C10: the cleanup command's flag defaults are 30 days and 5 builds —
not 0/disabled — so a bare cleanup marks builds as soon as a target holds
more than 5 builds or any build older than 30 days, and outside dry-run
with confirmation the marked builds are exactly what gets deleted, while
dry-run deletes nothing. -/
theorem cleanupDefaults_spec :
    cleanupDefaultMaxBuilds = 5 ∧ cleanupDefaultMaxAge = 30 ∧
    (∀ (builds : List DirEntry) (now : Int),
      (5 : Int) < (builds.length : Int) →
      cleanupMarks builds cleanupDefaultMaxBuilds cleanupDefaultMaxAge
        now ≠ []) ∧
    (∀ (builds : List DirEntry) (now : Int) (e : DirEntry), e ∈ builds →
      cleanupDefaultMaxAge * nsPerDay < now - e.modTime →
      cleanupMarks builds cleanupDefaultMaxBuilds cleanupDefaultMaxAge
        now ≠ []) ∧
    (∀ (builds : List DirEntry) (now : Int),
      cleanupRemoved builds cleanupDefaultMaxBuilds cleanupDefaultMaxAge
        now true true "" = [] ∧
      cleanupRemoved builds cleanupDefaultMaxBuilds cleanupDefaultMaxAge
        now false true "" =
        cleanupMarks builds cleanupDefaultMaxBuilds cleanupDefaultMaxAge
          now) := by
  refine ⟨rfl, rfl, ?_, ?_, ?_⟩
  · intro builds now hlen
    have hbc : marksByCount builds cleanupDefaultMaxBuilds ≠ [] := by
      unfold marksByCount cleanupDefaultMaxBuilds
      rw [if_pos ⟨by decide, hlen⟩]
      have h5 : (5 : Nat) < builds.length := by exact_mod_cast hlen
      intro hnil
      have := List.drop_eq_nil_iff.mp hnil
      simp only [Int.toNat_ofNat] at this
      omega
    unfold cleanupMarks cleanupDefaultMaxAge
    rw [if_pos (by decide : (0 : Int) < 30)]
    exact ageFold_ne_nil now 30 builds _
      (by unfold cleanupDefaultMaxBuilds at hbc; exact hbc)
  · intro builds now e he hage
    unfold cleanupMarks cleanupDefaultMaxAge
    rw [if_pos (by decide : (0 : Int) < 30)]
    refine ageFold_ne_nil_of_old now 30 builds _ e he ?_
    unfold isOlderThan
    exact decide_eq_true (by unfold cleanupDefaultMaxAge at hage; exact hage)
  · intro builds now
    constructor
    · unfold cleanupRemoved
      by_cases hm : (cleanupMarks builds cleanupDefaultMaxBuilds
          cleanupDefaultMaxAge now).isEmpty = true
      · rw [if_pos hm]
      · rw [if_neg hm, if_pos rfl]
    · unfold cleanupRemoved
      by_cases hm : (cleanupMarks builds cleanupDefaultMaxBuilds
          cleanupDefaultMaxAge now).isEmpty = true
      · rw [if_pos hm, List.isEmpty_iff.mp hm]
      · rw [if_neg hm, if_neg (by decide : ¬ (false : Bool) = true)]
        rw [if_neg (by decide : ¬ (!true && !(("" == "y") || ("" == "Y"))) = true)]

/-- Witness for C10: a bare cleanup over six fresh builds marks at least
one of them by the default count bound, and over one expired build marks
it by the default age bound. -/
theorem cleanupDefaults_spec_witness :
    (5 : Int) <
      (([⟨"b1", true, 1, 0, 0⟩, ⟨"b2", true, 2, 0, 0⟩, ⟨"b3", true, 3, 0, 0⟩,
         ⟨"b4", true, 4, 0, 0⟩, ⟨"b5", true, 5, 0, 0⟩, ⟨"b6", true, 6, 0, 0⟩] :
        List DirEntry).length : Int) ∧
    cleanupMarks [⟨"b1", true, 1, 0, 0⟩, ⟨"b2", true, 2, 0, 0⟩,
      ⟨"b3", true, 3, 0, 0⟩, ⟨"b4", true, 4, 0, 0⟩, ⟨"b5", true, 5, 0, 0⟩,
      ⟨"b6", true, 6, 0, 0⟩] cleanupDefaultMaxBuilds cleanupDefaultMaxAge
      7 ≠ [] ∧
    cleanupMarks [⟨"stale", true, 0, 0, 0⟩] cleanupDefaultMaxBuilds
      cleanupDefaultMaxAge (31 * nsPerDay) ≠ [] := by
  refine ⟨by decide, ?_, ?_⟩
  · exact cleanupDefaults_spec.2.2.1 [⟨"b1", true, 1, 0, 0⟩,
      ⟨"b2", true, 2, 0, 0⟩, ⟨"b3", true, 3, 0, 0⟩, ⟨"b4", true, 4, 0, 0⟩,
      ⟨"b5", true, 5, 0, 0⟩, ⟨"b6", true, 6, 0, 0⟩] 7 (by decide)
  · exact cleanupDefaults_spec.2.2.2.1 [⟨"stale", true, 0, 0, 0⟩]
      (31 * nsPerDay) ⟨"stale", true, 0, 0, 0⟩ (by decide) (by decide)

/-- The source-retention tail never touches the `bin` artifact. -/
theorem sourceRetention_binExists (b c : Bool) (fs : CommitDirFs) :
    (sourceRetention b c fs).1.binExists = fs.binExists := by
  unfold sourceRetention
  split_ifs <;> rfl

/-- C2: with the artifact directory already present, a build without the
force flag reports already-built and succeeds with the directory state
unchanged and neither clone nor build invoked; with the force flag the
wipe step clears only the `src` subtree, leaving the logs directory and
the prior metadata file in place at that point, and the pipeline then
re-executes the build command whenever the intermediate steps (clone,
checkout if applicable, working-directory check, command selection)
go through. -/
theorem executeBuild_idempotence_force (cfg : TargetCfg) (commitArg : String)
    (depth : Int) (remote : String → Except String String) (env : BuildEnv)
    (os : HostOS) (fs : CommitDirFs) (c : Commit)
    (hres : resolveBuildCommit cfg commitArg remote = .ok c)
    (hex : fs.dirExists = true) :
    executeBuild cfg commitArg depth false remote env os fs =
      ⟨.skippedAlreadyBuilt, fs, ⟨false, false, []⟩⟩ ∧
    (forceWipeSrc fs).srcExists = false ∧
    (forceWipeSrc fs).logsExists = fs.logsExists ∧
    (forceWipeSrc fs).metaExists = fs.metaExists ∧
    (env.cloneOk = true →
      (commitArg ≠ "" ∧ depth ≠ 1 → env.checkoutOk = true) →
      (cfg.workingDirectory ≠ "" → env.workDirOk = true) →
      ∀ cmdStr, osBuildCommand cfg.buildCommand os = some cmdStr →
        cmdStr ≠ "" →
        (executeBuild cfg commitArg depth true remote env os
          fs).trace.buildCalled = true) := by
  refine ⟨?_, rfl, rfl, rfl, ?_⟩
  · unfold executeBuild
    rw [hres]
    simp [hex]
  · intro hclone hco hwd cmdStr hcmd hne
    have hnotco : ¬(commitArg ≠ "" ∧ depth ≠ 1 ∧ env.checkoutOk = false) := by
      rintro ⟨ha, hb, hc⟩
      rw [hco ⟨ha, hb⟩] at hc
      exact absurd hc (by decide)
    have hnotwd : ¬(cfg.workingDirectory ≠ "" ∧ env.workDirOk = false) := by
      rintro ⟨ha, hb⟩
      rw [hwd ha] at hb
      exact absurd hb (by decide)
    simp only [executeBuild, hres, hex, hcmd, hclone, Bool.not_true,
      Bool.and_false, Bool.false_eq_true, if_false, hnotco, hnotwd, hne,
      ite_false]
    by_cases hb : env.buildOk = true <;> simp [hb]

/-- Witness for C2 at a concrete configuration, environment and
directory state. -/
theorem executeBuild_idempotence_force_witness :
    resolveBuildCommit ⟨"s", "main", "", false, ⟨"make", "make", "make", ""⟩,
        []⟩ "1234567890" (fun _ => .error "unused") =
      .ok ⟨"1234567890", "1234567"⟩ ∧
    executeBuild ⟨"s", "main", "", false, ⟨"make", "make", "make", ""⟩, []⟩
        "1234567890" 1 false (fun _ => .error "unused")
        ⟨true, true, true, true, true, true⟩ .linux
        ⟨true, true, true, false, true, true⟩ =
      ⟨.skippedAlreadyBuilt, ⟨true, true, true, false, true, true⟩,
        ⟨false, false, []⟩⟩ ∧
    (executeBuild ⟨"s", "main", "", false, ⟨"make", "make", "make", ""⟩, []⟩
        "1234567890" 1 true (fun _ => .error "unused")
        ⟨true, true, true, true, true, true⟩ .linux
        ⟨true, true, true, false, true, true⟩).trace.buildCalled = true := by
  have h := executeBuild_idempotence_force
    ⟨"s", "main", "", false, ⟨"make", "make", "make", ""⟩, []⟩ "1234567890" 1
    (fun _ => .error "unused") ⟨true, true, true, true, true, true⟩ .linux
    ⟨true, true, true, false, true, true⟩ ⟨"1234567890", "1234567"⟩ rfl rfl
  exact ⟨rfl, h.1, h.2.2.2.2 rfl (fun _ => rfl) (fun h => absurd rfl h)
    "make" rfl (by decide)⟩

/-- C8: when the clone step fails after the commit directory and its logs
directory have been created, the pipeline aborts with the clone error but
leaves the partially-created artifact directory (and its logs directory)
in place — nothing is rolled back — and the build command is never
invoked. -/
theorem executeBuild_clone_fail_keeps_dir (cfg : TargetCfg)
    (commitArg : String) (depth : Int) (force : Bool)
    (remote : String → Except String String) (env : BuildEnv) (os : HostOS)
    (fs : CommitDirFs) (c : Commit)
    (hres : resolveBuildCommit cfg commitArg remote = .ok c)
    (hclone : env.cloneOk = false)
    (hskip : fs.dirExists = false ∨ force = true) :
    (executeBuild cfg commitArg depth force remote env os fs).result =
      .failed .cloneFailed ∧
    (executeBuild cfg commitArg depth force remote env os
      fs).fs.dirExists = true ∧
    (executeBuild cfg commitArg depth force remote env os
      fs).fs.logsExists = true ∧
    (executeBuild cfg commitArg depth force remote env os
      fs).trace = ⟨true, false, []⟩ := by
  have hskipcond : (fs.dirExists && !force) = false := by
    rcases hskip with h | h
    · rw [h]
      rfl
    · rw [h]
      simp
  refine ⟨?_, ?_, ?_, ?_⟩ <;>
  simp only [executeBuild, hres, hskipcond, Bool.false_eq_true, if_false,
    hclone, if_true, if_pos rfl] <;>
  (by_cases hd : fs.dirExists = true <;> simp [hd, forceWipeSrc])

/-- Witness for C8: a failing clone on a fresh build of a concrete
target. -/
theorem executeBuild_clone_fail_keeps_dir_witness :
    resolveBuildCommit ⟨"s", "main", "", false, ⟨"make", "make", "make", ""⟩,
        []⟩ "1234567890" (fun _ => .error "unused") =
      .ok ⟨"1234567890", "1234567"⟩ ∧
    (executeBuild ⟨"s", "main", "", false, ⟨"make", "make", "make", ""⟩, []⟩
        "1234567890" 1 false (fun _ => .error "unused")
        ⟨false, true, true, true, true, true⟩ .linux
        ⟨false, false, false, false, false, false⟩).result =
      .failed .cloneFailed ∧
    (executeBuild ⟨"s", "main", "", false, ⟨"make", "make", "make", ""⟩, []⟩
        "1234567890" 1 false (fun _ => .error "unused")
        ⟨false, true, true, true, true, true⟩ .linux
        ⟨false, false, false, false, false, false⟩).fs.dirExists = true := by
  have h := executeBuild_clone_fail_keeps_dir
    ⟨"s", "main", "", false, ⟨"make", "make", "make", ""⟩, []⟩ "1234567890" 1
    false (fun _ => .error "unused") ⟨false, true, true, true, true, true⟩
    .linux ⟨false, false, false, false, false, false⟩
    ⟨"1234567890", "1234567"⟩ rfl rfl (.inl rfl)
  exact ⟨rfl, h.1, h.2.1⟩

/-- C9: on a successful build of a target that declares an explicit
binary path, a successful copy materializes the `bin` artifact (and
`copyFile` itself preserves contents and permission bits), while a
failing copy is reported as a warning and the build still succeeds
overall. -/
theorem executeBuild_binary_copy_nonfatal (cfg : TargetCfg)
    (commitArg : String) (depth : Int) (force : Bool)
    (remote : String → Except String String) (env : BuildEnv) (os : HostOS)
    (fs : CommitDirFs) (c : Commit) (cmdStr : String)
    (hres : resolveBuildCommit cfg commitArg remote = .ok c)
    (hskip : (fs.dirExists && !force) = false)
    (hclone : env.cloneOk = true)
    (hco : commitArg ≠ "" ∧ depth ≠ 1 → env.checkoutOk = true)
    (hwd : cfg.workingDirectory ≠ "" → env.workDirOk = true)
    (hcmd : osBuildCommand cfg.buildCommand os = some cmdStr)
    (hne : cmdStr ≠ "")
    (hbuild : env.buildOk = true)
    (hbin : cfg.buildCommand.binaryPath.isSome = true) :
    (executeBuild cfg commitArg depth force remote env os fs).result =
      .built ∧
    (env.copyBinOk = true →
      (executeBuild cfg commitArg depth force remote env os
        fs).fs.binExists = true) ∧
    (env.copyBinOk = false →
      .binaryCopyFailed ∈
        (executeBuild cfg commitArg depth force remote env os
          fs).trace.warnings) ∧
    (∀ f : FileData, copyFile (some f) = .ok f) := by
  have hnotco : ¬(commitArg ≠ "" ∧ depth ≠ 1 ∧ env.checkoutOk = false) := by
    rintro ⟨ha, hb, hc⟩
    rw [hco ⟨ha, hb⟩] at hc
    exact absurd hc (by decide)
  have hnotwd : ¬(cfg.workingDirectory ≠ "" ∧ env.workDirOk = false) := by
    rintro ⟨ha, hb⟩
    rw [hwd ha] at hb
    exact absurd hb (by decide)
  refine ⟨?_, ?_, ?_, fun f => rfl⟩
  · simp only [executeBuild, hres, hskip, Bool.false_eq_true, if_false,
      hclone, hnotco, hnotwd, hcmd, hne, ite_false, hbuild, if_true]
    simp
  · intro hcopy
    simp only [executeBuild, hres, hskip, Bool.false_eq_true, if_false,
      hclone, hnotco, hnotwd, hcmd, hne, ite_false, hbuild, hbin, hcopy,
      if_true]
    simp [sourceRetention_binExists]
  · intro hcopy
    simp only [executeBuild, hres, hskip, Bool.false_eq_true, if_false,
      hclone, hnotco, hnotwd, hcmd, hne, ite_false, hbuild, hbin, hcopy,
      if_true]
    simp

/-- Witness for C9: a concrete successful build with a declared binary
path whose copy step fails, still yielding overall success with a
warning. -/
theorem executeBuild_binary_copy_nonfatal_witness :
    (executeBuild ⟨"s", "main", "", false, ⟨"make", "make", "make", "out"⟩,
        []⟩ "1234567890" 1 false (fun _ => .error "unused")
        ⟨true, true, true, true, false, true⟩ .linux
        ⟨false, false, false, false, false, false⟩).result = .built ∧
    .binaryCopyFailed ∈
      (executeBuild ⟨"s", "main", "", false, ⟨"make", "make", "make", "out"⟩,
        []⟩ "1234567890" 1 false (fun _ => .error "unused")
        ⟨true, true, true, true, false, true⟩ .linux
        ⟨false, false, false, false, false, false⟩).trace.warnings := by
  have h := executeBuild_binary_copy_nonfatal
    ⟨"s", "main", "", false, ⟨"make", "make", "make", "out"⟩, []⟩
    "1234567890" 1 false (fun _ => .error "unused")
    ⟨true, true, true, true, false, true⟩ .linux
    ⟨false, false, false, false, false, false⟩ ⟨"1234567890", "1234567"⟩
    "make" rfl rfl rfl (fun _ => rfl) (fun h => absurd rfl h) rfl
    (by decide) rfl (by decide)
  exact ⟨h.1, h.2.2.1 rfl⟩

end Nigiri
